import Mathlib

/-
Shallow embedding of the utilities in src/a1-solution.ts.

Each TypeScript function is translated to a Lean definition over the
corresponding pure data model: JavaScript numbers appearing in these
utilities are modelled as integers (only comparison, doubling and squaring
occur), variadic parameters as lists, the optional boolean flag as an
Option Bool, the string-or-number union as a two-variant inductive type,
and the single-resolution promise of squareAsync by the outcome its
executor settles with (Except: error on reject, ok on resolve).
-/

namespace A1

/-- Record of interface Product (src lines 55-58): a name and a price. -/
structure Product where
  name : String
  price : Int
deriving DecidableEq

/-- One step of the loop body of getMostExpensiveProduct (src lines 67-71):
replace the current maximum only when the candidate price is strictly
greater. -/
def maxStep (maxProduct product : Product) : Product :=
  if product.price > maxProduct.price then product else maxProduct

/-- getMostExpensiveProduct (src lines 60-74): return null on the empty
list, otherwise start from products[0] and scan the whole list with the
strict-greater update. -/
def getMostExpensiveProduct (products : List Product) : Option Product :=
  match products with
  | [] => none
  | p :: rest => some (List.foldl maxStep p (p :: rest))

/-- Specification-side predicate: m sits at the first position of l whose
price attains the maximum, i.e. everything before it is strictly cheaper
and everything after it is no more expensive (first-wins scan maximum). -/
def IsFirstMax (l : List Product) (m : Product) : Prop :=
  ∃ l1 l2, l = l1 ++ m :: l2 ∧
    (∀ x ∈ l1, x.price < m.price) ∧
    (∀ x ∈ l2, x.price ≤ m.price)

/-- formatString (src lines 1-6): lowercase exactly when the optional flag
is present and false, uppercase otherwise. -/
def formatString (input : String) (toUpper : Option Bool) : String :=
  if toUpper = some false then input.toLower else input.toUpper

/-- Record shape of filterByRating's items (src line 8). -/
structure RatedItem where
  title : String
  rating : Int
deriving DecidableEq

/-- filterByRating (src lines 8-10): keep the items whose rating is at
least 4. -/
def filterByRating (items : List RatedItem) : List RatedItem :=
  items.filter (fun item => item.rating ≥ 4)

/-- concatenateArrays (src lines 12-18): start from the empty array and
append each input array in turn. -/
def concatenateArrays {T : Type} (arrays : List (List T)) : List T :=
  List.foldl (fun result array => result ++ array) ([] : List T) arrays

/-- The string-or-number union accepted by processValue (src line 47). -/
inductive StrOrNum where
  | str (s : String)
  | num (n : Int)
deriving DecidableEq

/-- processValue (src lines 47-53): length of a string, double of a
number. -/
def processValue : StrOrNum → Int
  | StrOrNum.str s => s.length
  | StrOrNum.num n => n * 2

/-- Class Vehicle (src lines 20-32): make and year fixed at
construction. -/
structure Vehicle where
  make : String
  year : Int
deriving DecidableEq

/-- Vehicle.getInfo (src lines 29-31), modelled by the line it prints. -/
def Vehicle.getInfo (v : Vehicle) : String :=
  "Make: " ++ v.make ++ ", Year: " ++ toString v.year

/-- Class Car extends Vehicle (src lines 34-45): adds a model. -/
structure Car extends Vehicle where
  model : String
deriving DecidableEq

/-- Car.getModel (src lines 42-44), modelled by the line it prints. -/
def Car.getModel (c : Car) : String :=
  "Model: " ++ c.model

/-- The Car constructor (src lines 37-40): super(make, year) then store
the model. -/
def mkCar (make : String) (year : Int) (model : String) : Car :=
  ⟨⟨make, year⟩, model⟩

/-- The seven-value Day enumeration (src lines 76-84), Monday first. -/
inductive Day where
  | Monday
  | Tuesday
  | Wednesday
  | Thursday
  | Friday
  | Saturday
  | Sunday
deriving DecidableEq

/-- getDayType (src lines 86-91): Weekend for Saturday or Sunday, Weekday
otherwise. -/
def getDayType (day : Day) : String :=
  if day = Day.Saturday ∨ day = Day.Sunday then "Weekend" else "Weekday"

/-- squareAsync (src lines 93-103), modelled by the outcome its promise
executor settles with after the timeout: reject with the error message
when n is negative, resolve with the square otherwise. -/
def squareAsync (n : Int) : Except String Int :=
  if n < 0 then Except.error "Negative number not allowed"
  else Except.ok (n * n)

/-- Helper for C1: scanning l from initial candidate a with the
strict-greater update yields the first-wins maximum of a :: l. -/
lemma foldl_maxStep_isFirstMax (l : List Product) :
    ∀ a : Product, IsFirstMax (a :: l) (List.foldl maxStep a l) := by
  induction l with
  | nil =>
    intro a
    exact ⟨[], [], rfl, by simp, by simp⟩
  | cons x xs ih =>
    intro a
    rw [List.foldl_cons]
    by_cases h : x.price > a.price
    · rw [show maxStep a x = x from if_pos h]
      obtain ⟨l1, l2, heq, hlt, hle⟩ := ih x
      cases l1 with
      | nil =>
        simp only [List.nil_append] at heq
        injection heq with h1 h2
        refine ⟨[a], l2, ?_, ?_, hle⟩
        · rw [List.singleton_append, ← h1, ← h2]
        · intro z hz
          rw [List.mem_singleton] at hz
          subst hz
          calc z.price < x.price := h
            _ = _ := congrArg Product.price h1
      | cons y l1t =>
        rw [List.cons_append] at heq
        injection heq with h1 h2
        refine ⟨a :: x :: l1t, l2, ?_, ?_, hle⟩
        · rw [List.cons_append, List.cons_append]
          exact congrArg (fun t => a :: x :: t) h2
        · intro z hz
          have hxm : x.price < (List.foldl maxStep x xs).price := by
            have := hlt y (List.mem_cons_self y l1t)
            rwa [← h1] at this
          rcases List.mem_cons.mp hz with hz | hz
          · subst hz; exact lt_trans h hxm
          · rcases List.mem_cons.mp hz with hz | hz
            · subst hz; exact hxm
            · exact hlt z (List.mem_cons_of_mem y hz)
    · rw [show maxStep a x = a from if_neg h]
      obtain ⟨l1, l2, heq, hlt, hle⟩ := ih a
      cases l1 with
      | nil =>
        simp only [List.nil_append] at heq
        injection heq with h1 h2
        refine ⟨[], x :: l2, ?_, by simp, ?_⟩
        · rw [List.nil_append, ← h1, ← h2]
        · intro z hz
          rcases List.mem_cons.mp hz with hz | hz
          · subst hz
            calc z.price ≤ a.price := not_lt.mp h
              _ = _ := congrArg Product.price h1
          · exact hle z hz
      | cons y l1t =>
        rw [List.cons_append] at heq
        injection heq with h1 h2
        refine ⟨a :: x :: l1t, l2, ?_, ?_, hle⟩
        · rw [List.cons_append, List.cons_append]
          exact congrArg (fun t => a :: x :: t) h2
        · intro z hz
          have ham : a.price < (List.foldl maxStep a xs).price := by
            have := hlt y (List.mem_cons_self y l1t)
            rwa [← h1] at this
          rcases List.mem_cons.mp hz with hz | hz
          · subst hz; exact ham
          · rcases List.mem_cons.mp hz with hz | hz
            · subst hz; exact lt_of_le_of_lt (not_lt.mp h) ham
            · exact hlt z (List.mem_cons_of_mem y hz)

/-- C1: on the empty list getMostExpensiveProduct returns none (the null
sentinel), and on a non-empty list it returns the record at the first
position attaining the maximum price, so a strict left-to-right scan with
first-wins tie-break; on the spec's example [A:10, B:20, C:20] it returns
B, not C. -/
theorem getMostExpensiveProduct_spec (products : List Product) :
    (products = [] → getMostExpensiveProduct products = none) ∧
    (products ≠ [] →
      ∃ m, getMostExpensiveProduct products = some m ∧ IsFirstMax products m) ∧
    getMostExpensiveProduct [⟨"A", 10⟩, ⟨"B", 20⟩, ⟨"C", 20⟩] =
      some ⟨"B", 20⟩ := by
  refine ⟨?_, ?_, by decide⟩
  · intro h; subst h; rfl
  · intro h
    cases products with
    | nil => exact absurd rfl h
    | cons p rest =>
      refine ⟨List.foldl maxStep p (p :: rest), rfl, ?_⟩
      have hself : maxStep p p = p := by
        unfold maxStep; split <;> rfl
      rw [List.foldl_cons, hself]
      exact foldl_maxStep_isFirstMax rest p

/-- Witness for C1 at the empty list and at the concrete non-empty list
[A:10, B:20, C:20]. -/
theorem getMostExpensiveProduct_spec_witness :
    getMostExpensiveProduct [] = none ∧
    ∃ m, getMostExpensiveProduct [⟨"A", 10⟩, ⟨"B", 20⟩, ⟨"C", 20⟩] = some m ∧
      IsFirstMax [⟨"A", 10⟩, ⟨"B", 20⟩, ⟨"C", 20⟩] m :=
  ⟨(getMostExpensiveProduct_spec []).1 rfl,
    (getMostExpensiveProduct_spec [⟨"A", 10⟩, ⟨"B", 20⟩, ⟨"C", 20⟩]).2.1
      (by decide)⟩

/-- C3: with the flag explicitly false formatString lowercases its input,
and with the flag true or omitted it uppercases it. -/
theorem formatString_spec (s : String) :
    formatString s (some false) = s.toLower ∧
    formatString s (some true) = s.toUpper ∧
    formatString s none = s.toUpper :=
  ⟨rfl, rfl, rfl⟩

/-- C4: filterByRating R is a sublist of R (so order-preserving and
non-mutating), a record belongs to it exactly when it belongs to R with
rating at least 4, multiplicities are preserved for kept records and zero
for dropped ones, and the empty list maps to the empty list. -/
theorem filterByRating_spec (R : List RatedItem) :
    List.Sublist (filterByRating R) R ∧
    (∀ x, x ∈ filterByRating R ↔ x ∈ R ∧ x.rating ≥ 4) ∧
    (∀ x, List.count x (filterByRating R) =
      if x.rating ≥ 4 then List.count x R else 0) ∧
    filterByRating [] = [] := by
  refine ⟨List.filter_sublist R, ?_, ?_, rfl⟩
  · intro x
    simp [filterByRating, List.mem_filter]
  · intro x
    by_cases h : x.rating ≥ 4
    · rw [if_pos h]
      exact List.count_filter (by simpa using h)
    · rw [if_neg h]
      rw [List.count_eq_zero]
      simp [filterByRating, List.mem_filter, h]

/-- Helper for C5: folding append from any accumulator flattens the list
of arrays to the right of it. -/
lemma foldl_append_eq_flatten {T : Type} (init : List T) (l : List (List T)) :
    List.foldl (fun result array => result ++ array) init l =
      init ++ l.flatten := by
  induction l generalizing init with
  | nil => simp
  | cons x xs ih => simp [ih, List.append_assoc]

/-- C5: concatenateArrays flattens its inputs in order, its length is the
sum of the input lengths, and zero inputs give the empty array. -/
theorem concatenateArrays_spec {T : Type} (L : List (List T)) :
    concatenateArrays L = L.flatten ∧
    (concatenateArrays L).length = (L.map List.length).sum ∧
    concatenateArrays ([] : List (List T)) = [] := by
  have h : concatenateArrays L = L.flatten := by
    have := foldl_append_eq_flatten ([] : List T) L
    simpa [concatenateArrays] using this
  exact ⟨h, by rw [h]; exact List.length_flatten L, rfl⟩

/-- C6: processValue returns the character count of a string input and
twice a numeric input; in particular "hello" gives 5 and 10 gives 20. -/
theorem processValue_spec :
    (∀ s, processValue (StrOrNum.str s) = s.length) ∧
    (∀ n, processValue (StrOrNum.num n) = n * 2) ∧
    processValue (StrOrNum.str "hello") = 5 ∧
    processValue (StrOrNum.num 10) = 20 :=
  ⟨fun _ => rfl, fun _ => rfl, by decide, by decide⟩

/-- C7: getDayType is total on the seven-value Day enumeration, returning
"Weekend" exactly on Saturday and Sunday and "Weekday" exactly on the
other five days. -/
theorem getDayType_spec (d : Day) :
    (getDayType d = "Weekend" ↔ (d = Day.Saturday ∨ d = Day.Sunday)) ∧
    (getDayType d = "Weekday" ↔ ¬(d = Day.Saturday ∨ d = Day.Sunday)) := by
  cases d <;> exact ⟨by decide, by decide⟩

/-- C8: a Car built from (m, y, d) keeps the base Vehicle data unchanged,
so the inherited getInfo prints the base line built from m and y exactly
as a directly constructed Vehicle would, and getModel independently prints
the model line; the Toyota/2020/Corolla instance prints the two expected
lines. -/
theorem mkCar_spec (m : String) (y : Int) (d : String) :
    (mkCar m y d).toVehicle = Vehicle.mk m y ∧
    Vehicle.getInfo (mkCar m y d).toVehicle = Vehicle.getInfo (Vehicle.mk m y) ∧
    Vehicle.getInfo (mkCar m y d).toVehicle =
      "Make: " ++ m ++ ", Year: " ++ toString y ∧
    Car.getModel (mkCar m y d) = "Model: " ++ d ∧
    Vehicle.getInfo (mkCar "Toyota" 2020 "Corolla").toVehicle =
      "Make: Toyota, Year: 2020" ∧
    Car.getModel (mkCar "Toyota" 2020 "Corolla") = "Model: Corolla" :=
  ⟨rfl, rfl, rfl, rfl, by decide, by decide⟩

/-- C2 counterexample: at the claimed failing input -3 the executor does
reject, but the message is "Negative number not allowed" (capital N), not
the claimed "negative number not allowed". -/
theorem squareAsync_message_counterexample :
    squareAsync (-3) ≠ Except.error "negative number not allowed" ∧
    squareAsync (-3) = Except.error "Negative number not allowed" := by
  constructor
  · intro h
    rw [show squareAsync (-3) =
      Except.error "Negative number not allowed" from rfl] at h
    injection h with h'
    exact absurd h' (by decide)
  · rfl

/-- C2 amended: a non-negative input settles successfully with its square
and a negative input settles with the domain error whose message is
"Negative number not allowed" (so it never resolves successfully). -/
theorem squareAsync_spec (n : Int) :
    (0 ≤ n → squareAsync n = Except.ok (n * n)) ∧
    (n < 0 → squareAsync n = Except.error "Negative number not allowed") := by
  constructor
  · intro h; unfold squareAsync; rw [if_neg (not_lt.mpr h)]
  · intro h; unfold squareAsync; rw [if_pos h]

/-- Witness for C2 at the spec's concrete inputs 5 and -3. -/
theorem squareAsync_spec_witness :
    squareAsync 5 = Except.ok (5 * 5) ∧
    squareAsync (-3) = Except.error "Negative number not allowed" :=
  ⟨(squareAsync_spec 5).1 (by decide), (squareAsync_spec (-3)).2 (by decide)⟩

/-- C9: zero is on the success side of the strict negative guard, so
squareAsync 0 settles successfully with 0. -/
theorem squareAsync_zero : squareAsync 0 = Except.ok 0 := rfl

/-- C10: filterByRating is idempotent, since every record it keeps already
has rating at least 4. -/
theorem filterByRating_idempotent (R : List RatedItem) :
    filterByRating (filterByRating R) = filterByRating R := by
  simp [filterByRating, List.filter_filter]

end A1
